import Mathlib

/-!
Verification of the session-aware level calculator and indicator engine of
the StockChartLevelTrendlines repository (`level_calculator.py`,
`indicators.py`, constants from `config.py`).

Modelling conventions:
* Prices are exact rationals (`ℚ`); floating-point rounding is abstracted away.
* Pandas floating-point series entries are modelled by `PF`, a four-case
  IEEE-style value (`nan`, `+inf`, `-inf`, finite rational); `nan` is the
  "missing" marker (`pd.isna`), exactly as in pandas.
* A timestamped OHLCV row is a `Bar` with a session date (`day`, a day
  number standing for the calendar date) and a time of day (`tod`, minutes
  after midnight in market-local time).
* Pandas dataframe/series operations are translated one-for-one by their
  documented elementwise/window semantics (`diff`, `where`, `rolling(...)
  .mean()` with `min_periods`, `cumsum`, `ewm(span, adjust=False).mean()`,
  `between_time` with both ends inclusive).
-/

namespace StockChart

/-- IEEE-style scalar as held in a pandas float64 series: not-a-number,
the two infinities, or a finite value (modelled as an exact rational). -/
inductive PF where
  | nan : PF
  | pinf : PF
  | ninf : PF
  | fin : ℚ → PF
deriving DecidableEq

/-- Model of `pd.isna` on one scalar. -/
def PF.isNan : PF → Bool
  | PF.nan => true
  | _ => false

/-- True exactly on finite (defined, non-missing, non-infinite) values. -/
def PF.isFin : PF → Bool
  | PF.fin _ => true
  | _ => false

/-- The rational carried by a finite value (0 otherwise). -/
def PF.toQ : PF → ℚ
  | PF.fin q => q
  | _ => 0

/-- IEEE addition. -/
def PF.add : PF → PF → PF
  | PF.nan, _ => PF.nan
  | _, PF.nan => PF.nan
  | PF.pinf, PF.ninf => PF.nan
  | PF.ninf, PF.pinf => PF.nan
  | PF.pinf, _ => PF.pinf
  | _, PF.pinf => PF.pinf
  | PF.ninf, _ => PF.ninf
  | _, PF.ninf => PF.ninf
  | PF.fin a, PF.fin b => PF.fin (a + b)

/-- IEEE negation. -/
def PF.neg : PF → PF
  | PF.nan => PF.nan
  | PF.pinf => PF.ninf
  | PF.ninf => PF.pinf
  | PF.fin a => PF.fin (-a)

/-- IEEE subtraction. -/
def PF.sub (a b : PF) : PF := a.add b.neg

/-- IEEE multiplication. -/
def PF.mul : PF → PF → PF
  | PF.nan, _ => PF.nan
  | _, PF.nan => PF.nan
  | PF.fin a, PF.fin b => PF.fin (a * b)
  | PF.pinf, PF.fin b => if b = 0 then PF.nan else if 0 < b then PF.pinf else PF.ninf
  | PF.fin a, PF.pinf => if a = 0 then PF.nan else if 0 < a then PF.pinf else PF.ninf
  | PF.ninf, PF.fin b => if b = 0 then PF.nan else if 0 < b then PF.ninf else PF.pinf
  | PF.fin a, PF.ninf => if a = 0 then PF.nan else if 0 < a then PF.ninf else PF.pinf
  | PF.pinf, PF.pinf => PF.pinf
  | PF.ninf, PF.ninf => PF.pinf
  | PF.pinf, PF.ninf => PF.ninf
  | PF.ninf, PF.pinf => PF.ninf

/-- IEEE division (zeros are the positive zero of float64, so `a / 0` is
`+inf` for `a > 0`, `-inf` for `a < 0`, and `nan` for `0 / 0`). -/
def PF.div : PF → PF → PF
  | PF.nan, _ => PF.nan
  | _, PF.nan => PF.nan
  | PF.fin a, PF.fin b =>
      if b = 0 then (if a = 0 then PF.nan else if 0 < a then PF.pinf else PF.ninf)
      else PF.fin (a / b)
  | PF.fin _, PF.pinf => PF.fin 0
  | PF.fin _, PF.ninf => PF.fin 0
  | PF.pinf, PF.fin b => if 0 ≤ b then PF.pinf else PF.ninf
  | PF.ninf, PF.fin b => if 0 ≤ b then PF.ninf else PF.pinf
  | PF.pinf, PF.pinf => PF.nan
  | PF.pinf, PF.ninf => PF.nan
  | PF.ninf, PF.pinf => PF.nan
  | PF.ninf, PF.ninf => PF.nan

/-- IEEE strict less-than: any comparison involving `nan` is false. -/
def PF.ltB : PF → PF → Bool
  | PF.nan, _ => false
  | _, PF.nan => false
  | PF.pinf, _ => false
  | PF.ninf, PF.ninf => false
  | PF.ninf, _ => true
  | PF.fin _, PF.pinf => true
  | PF.fin _, PF.ninf => false
  | PF.fin a, PF.fin b => decide (a < b)

/-- IEEE strict greater-than. -/
def PF.gtB (a b : PF) : Bool := PF.ltB b a

/-- One OHLCV bar: session date `day` (day number for the calendar date in
market-local time), time of day `tod` (minutes after midnight,
market-local), prices, and a non-negative integer volume. -/
structure Bar where
  day : ℕ
  tod : ℕ
  op : ℚ
  high : ℚ
  low : ℚ
  close : ℚ
  volume : ℕ
deriving DecidableEq

/-- Default bar used only as a `getD` fallback. -/
def dBar : Bar := ⟨0, 0, 0, 0, 0, 0, 0⟩

/-! Market-hours constants from `config.py`, as minutes after midnight. -/

/-- Constant `PREMARKET_OPEN = dt.time(4, 0)`. -/
def PREMARKET_OPEN : ℕ := 240

/-- Constant `MARKET_OPEN = dt.time(9, 30)`. -/
def MARKET_OPEN : ℕ := 570

/-- Constant `MARKET_CLOSE = dt.time(16, 0)`. -/
def MARKET_CLOSE : ℕ := 960

/-- Constant `ORB_5_END = dt.time(9, 35)`. -/
def ORB_5_END : ℕ := 575

/-- Constant `ORB_15_END = dt.time(9, 45)`. -/
def ORB_15_END : ℕ := 585

/-- Model of `df.between_time(s, e)`: keep the bars whose time of day lies in the
window, inclusive on both ends (the pandas default `inclusive="both"`). -/
def betweenTime (s e : ℕ) (df : List Bar) : List Bar :=
  df.filter (fun b => decide (s ≤ b.tod) && decide (b.tod ≤ e))

/-- Model of `series.max()` on a column: `none` on an empty column (the level code
only reads it on non-empty frames). -/
def seriesMax : List ℚ → Option ℚ
  | [] => none
  | x :: xs => some (xs.foldl max x)

/-- Model of `series.min()` on a column. -/
def seriesMin : List ℚ → Option ℚ
  | [] => none
  | x :: xs => some (xs.foldl min x)

/-- Insert a date into a strictly-ascending duplicate-free list, keeping it
strictly ascending and duplicate-free. -/
def insertSortedNat (x : ℕ) : List ℕ → List ℕ
  | [] => [x]
  | y :: ys => if x < y then x :: y :: ys else if x = y then y :: ys else y :: insertSortedNat x ys

/-- Model of `sorted(np.unique(df.index.date))`: the distinct session dates present,
ascending. -/
def sortedUniqueDates (l : List ℕ) : List ℕ := l.foldr insertSortedNat []

/-- The `for prev_date in ...` loop body of `find_previous_trading_day`:
scan the given candidate dates in the given order; for each, restrict to
that date's bars inside regular trading hours; return (max high, min low)
of the first date whose restricted frame is non-empty, else (None, None). -/
def prevDayLoop (df : List Bar) : List ℕ → Option ℚ × Option ℚ
  | [] => (none, none)
  | d :: ds =>
    let df_prev_day := df.filter (fun b => decide (b.day = d))
    let df_prev_day_rth := betweenTime MARKET_OPEN MARKET_CLOSE df_prev_day
    if df_prev_day_rth.isEmpty then prevDayLoop df ds
    else (seriesMax (df_prev_day_rth.map Bar.high), seriesMin (df_prev_day_rth.map Bar.low))

/-- Translation of `find_previous_trading_day(df, today_date)` from `level_calculator.py`:
iterates `reversed(all_dates[:-1])` — all distinct session dates except the
last, in descending order; `today_date` is accepted but never read. -/
def find_previous_trading_day (df : List Bar) (today_date : ℕ) : Option ℚ × Option ℚ :=
  let _ := today_date
  let all_dates := sortedUniqueDates (df.map Bar.day)
  prevDayLoop df all_dates.dropLast.reverse

/-- Modelled from the claim's words (refinement reference): scan the session
dates strictly before `today` in descending order, with the same skip-and-
extract loop as the source. -/
def prevTradingDaySpec (df : List Bar) (today : ℕ) : Option ℚ × Option ℚ :=
  let all_dates := sortedUniqueDates (df.map Bar.day)
  prevDayLoop df ((all_dates.filter (fun d => decide (d < today))).reverse)

/-- Shared body of `calculate_premarket_levels` and `calculate_orb_levels`:
`between_time` first, then restrict to the target date, then extrema;
(None, None) whenever a stage comes up empty. -/
def extractWindow (df : List Bar) (target ws we : ℕ) : Option ℚ × Option ℚ :=
  let dfw := betweenTime ws we df
  if dfw.isEmpty then (none, none)
  else
    let dft := dfw.filter (fun b => decide (b.day = target))
    if dft.isEmpty then (none, none)
    else (seriesMax (dft.map Bar.high), seriesMin (dft.map Bar.low))

/-- Modelled from the claim's words (refinement reference): one combined
filter — time of day within the window (inclusive both ends, regardless of
date) and session date equal to the target — then extrema, else absent. -/
def extractSpec (df : List Bar) (target ws we : ℕ) : Option ℚ × Option ℚ :=
  let sub := df.filter
    (fun b => (decide (ws ≤ b.tod) && decide (b.tod ≤ we)) && decide (b.day = target))
  if sub.isEmpty then (none, none)
  else (seriesMax (sub.map Bar.high), seriesMin (sub.map Bar.low))

/-- Translation of `calculate_premarket_levels(df, today_date)` from `level_calculator.py`. -/
def calculate_premarket_levels (df : List Bar) (today_date : ℕ) : Option ℚ × Option ℚ :=
  extractWindow df today_date PREMARKET_OPEN MARKET_OPEN

/-- Translation of `calculate_orb_levels(df, today_date, orb_end_time, label)` from
`level_calculator.py` (the `label` argument only feeds logging and is
dropped). -/
def calculate_orb_levels (df : List Bar) (today_date : ℕ) (orb_end_time : ℕ) :
    Option ℚ × Option ℚ :=
  extractWindow df today_date MARKET_OPEN orb_end_time

/-- The fixed level-name vocabulary of the level dictionary.
`ORB_5_15_High`/`ORB_5_15_Low` stand for the combined keys
`"ORB_5/15_High"`/`"ORB_5/15_Low"`. -/
inductive LevelName where
  | PDH | PDL
  | PM_High | PM_Low
  | ORB_5_High | ORB_5_Low
  | ORB_15_High | ORB_15_Low
  | ORB_5_15_High | ORB_5_15_Low
deriving DecidableEq

/-- A level dictionary: level name to price, absent key = `none`. -/
def LevelSet : Type := LevelName → Option ℚ

/-- The empty dictionary. -/
def emptyLS : LevelSet := fun _ => none

/-- Dictionary write `levels[k] = v` (storing an optional so absent stays absent). -/
def lsSet (k : LevelName) (v : Option ℚ) (m : LevelSet) : LevelSet :=
  fun k' => if k' = k then v else m k'

/-- Dictionary removal `levels.pop(k, None)`. -/
def lsPop (k : LevelName) (m : LevelSet) : LevelSet :=
  fun k' => if k' = k then none else m k'

/-- The high-merging half of `merge_identical_levels`. -/
def mergeHighs (m : LevelSet) : LevelSet :=
  match m LevelName.ORB_5_High, m LevelName.ORB_15_High with
  | some a, some b =>
      if a = b then
        lsPop LevelName.ORB_15_High
          (lsPop LevelName.ORB_5_High (lsSet LevelName.ORB_5_15_High (some a) m))
      else m
  | _, _ => m

/-- The low-merging half of `merge_identical_levels`. -/
def mergeLows (m : LevelSet) : LevelSet :=
  match m LevelName.ORB_5_Low, m LevelName.ORB_15_Low with
  | some a, some b =>
      if a = b then
        lsPop LevelName.ORB_15_Low
          (lsPop LevelName.ORB_5_Low (lsSet LevelName.ORB_5_15_Low (some a) m))
      else m
  | _, _ => m

/-- Translation of `merge_identical_levels(levels)` from `level_calculator.py`: work on a
copy, merge the two ORB highs when both present and equal, then likewise
the two ORB lows. -/
def merge_identical_levels (levels : LevelSet) : LevelSet :=
  mergeLows (mergeHighs levels)

/-- Translation of `calculate_levels(df_7day)` from `level_calculator.py`: the orchestrator
that derives "today" as the greatest session date present and inserts each
high/low pair when its computation produced a value. -/
def calculate_levels (df_7day : List Bar) : LevelSet :=
  let all_dates := sortedUniqueDates (df_7day.map Bar.day)
  match all_dates.getLast? with
  | none => emptyLS
  | some today_date =>
    let p := find_previous_trading_day df_7day today_date
    let l1 := if p.1.isSome then lsSet LevelName.PDL p.2 (lsSet LevelName.PDH p.1 emptyLS)
              else emptyLS
    let pm := calculate_premarket_levels df_7day today_date
    let l2 := if pm.1.isSome then lsSet LevelName.PM_Low pm.2 (lsSet LevelName.PM_High pm.1 l1)
              else l1
    let o5 := calculate_orb_levels df_7day today_date ORB_5_END
    let l3 := if o5.1.isSome then
                lsSet LevelName.ORB_5_Low o5.2 (lsSet LevelName.ORB_5_High o5.1 l2)
              else l2
    let o15 := calculate_orb_levels df_7day today_date ORB_15_END
    let l4 := if o15.1.isSome then
                lsSet LevelName.ORB_15_Low o15.2 (lsSet LevelName.ORB_15_High o15.1 l3)
              else l3
    l4

/-- Model of `series.diff()`: elementwise `out[i] = in[i] - in[i-1]`, `out[0] = NaN`. -/
def diffSer (xs : List ℚ) : List PF :=
  (List.range xs.length).map
    (fun i => if i = 0 then PF.nan else PF.fin (xs.getD i 0 - xs.getD (i - 1) 0))

/-- One entry of `series.rolling(window=period, min_periods=period).mean()`:
the trailing window of (at most) `period` entries ending at `i`; the mean is
defined only when the window holds `period` non-missing observations. -/
def windowMean (period : ℕ) (xs : List PF) (i : ℕ) : PF :=
  let w := (List.range' (i + 1 - period) (min period (i + 1))).map (fun j => xs.getD j PF.nan)
  if period ≤ i + 1 ∧ w.all PF.isFin then PF.fin ((w.map PF.toQ).sum / period)
  else PF.nan

/-- Model of `series.rolling(window=period, min_periods=period).mean()`. -/
def rollingMean (period : ℕ) (xs : List PF) : List PF :=
  (List.range xs.length).map (windowMean period xs)

/-- Elementwise combination of two index-aligned series (pandas arithmetic
on two series of the same index). -/
def seriesZip (f : PF → PF → PF) (a b : List PF) : List PF :=
  (List.range (min a.length b.length)).map (fun i => f (a.getD i PF.nan) (b.getD i PF.nan))

/-- Translation of `calculate_rsi(df, period)` from `indicators.py`, applied to the
`Close` column: `delta = close.diff()`, `gain = delta.where(delta > 0, 0)`,
`loss = -delta.where(delta < 0, 0)`, trailing simple means with
`min_periods = period`, `rs = avg_gain / avg_loss`,
`rsi = 100 - 100 / (1 + rs)`.  (Comparisons against `NaN` are false, so the
leading `NaN` of `diff` becomes a zero gain and a zero loss.) -/
def calculate_rsi (close : List ℚ) (period : ℕ) : List PF :=
  let delta := diffSer close
  let gain := delta.map (fun d => if PF.ltB (PF.fin 0) d then d else PF.fin 0)
  let loss := delta.map (fun d => PF.neg (if PF.ltB d (PF.fin 0) then d else PF.fin 0))
  let avg_gain := rollingMean period gain
  let avg_loss := rollingMean period loss
  let rs := seriesZip PF.div avg_gain avg_loss
  rs.map (fun r => PF.sub (PF.fin 100) (PF.div (PF.fin 100) (PF.add (PF.fin 1) r)))

/-- The gain at index `i` as a plain rational (what `PF.toQ` of the `gain`
series yields: zero at index 0, else the positive part of the delta). -/
def gainQ (close : List ℚ) (i : ℕ) : ℚ :=
  if i = 0 then 0
  else if 0 < close.getD i 0 - close.getD (i - 1) 0 then close.getD i 0 - close.getD (i - 1) 0
  else 0

/-- The loss at index `i` as a plain rational. -/
def lossQ (close : List ℚ) (i : ℕ) : ℚ :=
  if i = 0 then 0
  else if close.getD i 0 - close.getD (i - 1) 0 < 0 then -(close.getD i 0 - close.getD (i - 1) 0)
  else 0

/-- Model of `series.cumsum()`: entry `i` is the sum of the first `i + 1` entries. -/
def cumsumSer (xs : List PF) : List PF :=
  (List.range xs.length).map (fun i => (xs.take (i + 1)).foldl PF.add (PF.fin 0))

/-- Translation of `calculate_vwap(df)` from `indicators.py`:
`typical_price = (High + Low + Close) / 3`, then the ratio of the running
sums of `typical_price * Volume` and of `Volume`. -/
def calculate_vwap (df : List Bar) : List PF :=
  let typical_price := df.map (fun b => PF.fin ((b.high + b.low + b.close) / 3))
  let volume := df.map (fun b => PF.fin (b.volume : ℚ))
  let cumulative_tp_volume := cumsumSer (seriesZip PF.mul typical_price volume)
  let cumulative_volume := cumsumSer volume
  seriesZip PF.div cumulative_tp_volume cumulative_volume

/-- The tail recursion of `ewm(span, adjust=False).mean()` after the seed:
`y_i = α * x_i + (1 - α) * y_{i-1}`. -/
def ewmGo (a : ℚ) (prev : ℚ) : List ℚ → List ℚ
  | [] => []
  | x :: xs =>
    let y := a * x + (1 - a) * prev
    y :: ewmGo a y xs

/-- Model of `series.ewm(span=span, adjust=False).mean()` on a clean (no-missing)
series: seeded at the first observation, recurrence with
`α = 2 / (span + 1)`. -/
def ewmMean (span : ℕ) : List ℚ → List ℚ
  | [] => []
  | x :: xs => x :: ewmGo (2 / ((span : ℚ) + 1)) x xs

/-- Translation of `calculate_macd(df, fast_period, slow_period, signal_period)` from
`indicators.py`, applied to the `Close` column; returns
(macd_line, signal_line, histogram). -/
def calculate_macd (close : List ℚ) (fast_period slow_period signal_period : ℕ) :
    List ℚ × List ℚ × List ℚ :=
  let ema_fast := ewmMean fast_period close
  let ema_slow := ewmMean slow_period close
  let macd_line := List.zipWith (fun a b => a - b) ema_fast ema_slow
  let signal_line := ewmMean signal_period macd_line
  let histogram := List.zipWith (fun a b => a - b) macd_line signal_line
  (macd_line, signal_line, histogram)

/-- The indicator dictionary handed to `get_indicator_signals`; a `none`
field models a key absent from the dictionary. -/
structure Indicators where
  rsi : Option (List PF)
  macd_histogram : Option (List PF)
  vwap : Option (List PF)
deriving DecidableEq

/-- RSI signal labels. -/
inductive RsiSig where
  | Overbought | Oversold | Neutral
deriving DecidableEq

/-- MACD signal labels. -/
inductive MacdSig where
  | Bullish | Bearish | Neutral
deriving DecidableEq

/-- The signals dictionary: every field optional, `none` = key omitted. -/
structure Signals where
  rsi_signal : Option RsiSig
  rsi_value : Option PF
  macd_signal : Option MacdSig
  macd_histogram_value : Option PF
  vwap_value : Option PF
deriving DecidableEq

/-- Translation of `get_indicator_signals(indicators)` from `indicators.py`: classify the
latest value of each series with strict comparisons, and emit nothing for a
series that is absent, empty, or whose latest value is missing. -/
def get_indicator_signals (ind : Indicators) : Signals :=
  let rsiPair : Option RsiSig × Option PF :=
    match ind.rsi with
    | some xs =>
      match xs.getLast? with
      | some v =>
        if v.isNan then (none, none)
        else
          (some (if PF.gtB v (PF.fin 70) then RsiSig.Overbought
                 else if PF.ltB v (PF.fin 30) then RsiSig.Oversold
                 else RsiSig.Neutral),
           some v)
      | none => (none, none)
    | none => (none, none)
  let macdPair : Option MacdSig × Option PF :=
    match ind.macd_histogram with
    | some xs =>
      match xs.getLast? with
      | some v =>
        if v.isNan then (none, none)
        else
          (some (if PF.gtB v (PF.fin 0) then MacdSig.Bullish
                 else if PF.ltB v (PF.fin 0) then MacdSig.Bearish
                 else MacdSig.Neutral),
           some v)
      | none => (none, none)
    | none => (none, none)
  let vwapVal : Option PF :=
    match ind.vwap with
    | some xs =>
      match xs.getLast? with
      | some v => if v.isNan then none else some v
      | none => none
    | none => none
  ⟨rsiPair.1, rsiPair.2, macdPair.1, macdPair.2, vwapVal⟩

/-! Concrete inputs used by the claim examples, witnesses and
counterexamples. -/

/-- Three days of bars (days 1, 2, 3), each with one regular-hours bar. -/
def threeDayBars : List Bar :=
  [⟨1, 600, 1, 2, 1, 2, 10⟩, ⟨2, 600, 4, 5, 4, 5, 10⟩, ⟨3, 600, 7, 8, 7, 8, 10⟩]

/-- The spec's opening-range example: bars on one session date at
09:30/09:33/09:35 with highs [101.0, 101.2, 100.9] and lows
[100.5, 100.7, 100.6]. -/
def orbExampleBars : List Bar :=
  [⟨15, 570, 101, 101, 100.5, 101, 10⟩,
   ⟨15, 573, 101, 101.2, 100.7, 101, 10⟩,
   ⟨15, 575, 101, 100.9, 100.6, 101, 10⟩]

/-- The spec's one-bar VWAP example: high 10, low 8, close 9, volume 100. -/
def vwapExampleBars : List Bar := [⟨0, 570, 9, 10, 8, 9, 100⟩]

/-- The spec's merge example: equal ORB highs (101.50), unequal ORB lows
(100.00 vs 100.25). -/
def mergeExampleLevels : LevelSet := fun k =>
  match k with
  | LevelName.ORB_5_High => some (203 / 2)
  | LevelName.ORB_15_High => some (203 / 2)
  | LevelName.ORB_5_Low => some 100
  | LevelName.ORB_15_Low => some (401 / 4)
  | _ => none

/-- The expected merge result of the spec's example: highs combined,
lows untouched. -/
def mergeExampleMerged : LevelSet := fun k =>
  match k with
  | LevelName.ORB_5_15_High => some (203 / 2)
  | LevelName.ORB_5_Low => some 100
  | LevelName.ORB_15_Low => some (401 / 4)
  | _ => none

/-! ### Helper lemmas -/

theorem lsSet_apply (k : LevelName) (v : Option ℚ) (m : LevelSet) (k' : LevelName) :
    lsSet k v m k' = if k' = k then v else m k' := rfl

theorem lsPop_apply (k : LevelName) (m : LevelSet) (k' : LevelName) :
    lsPop k m k' = if k' = k then none else m k' := rfl

theorem mergeHighs_other (m : LevelSet) (k : LevelName)
    (h5 : k ≠ LevelName.ORB_5_High) (h15 : k ≠ LevelName.ORB_15_High)
    (hc : k ≠ LevelName.ORB_5_15_High) : mergeHighs m k = m k := by
  unfold mergeHighs
  rcases m LevelName.ORB_5_High with _ | a <;> rcases m LevelName.ORB_15_High with _ | b <;>
    simp [lsPop_apply, lsSet_apply, h5, h15, hc]
  split <;> simp [lsPop_apply, lsSet_apply, h5, h15, hc]

theorem mergeLows_other (m : LevelSet) (k : LevelName)
    (h5 : k ≠ LevelName.ORB_5_Low) (h15 : k ≠ LevelName.ORB_15_Low)
    (hc : k ≠ LevelName.ORB_5_15_Low) : mergeLows m k = m k := by
  unfold mergeLows
  rcases m LevelName.ORB_5_Low with _ | a <;> rcases m LevelName.ORB_15_Low with _ | b <;>
    simp [lsPop_apply, lsSet_apply, h5, h15, hc]
  split <;> simp [lsPop_apply, lsSet_apply, h5, h15, hc]

theorem mergeHighs_none5 (m : LevelSet) (h : m LevelName.ORB_5_High = none) :
    mergeHighs m = m := by
  unfold mergeHighs
  rw [h]

theorem mergeHighs_none15 (m : LevelSet) (h : m LevelName.ORB_15_High = none) :
    mergeHighs m = m := by
  unfold mergeHighs
  rw [h]
  rcases m LevelName.ORB_5_High with _ | a <;> rfl

theorem mergeHighs_some_eq (m : LevelSet) (a b : ℚ)
    (h5 : m LevelName.ORB_5_High = some a) (h15 : m LevelName.ORB_15_High = some b)
    (hab : a = b) :
    mergeHighs m =
      lsPop LevelName.ORB_15_High
        (lsPop LevelName.ORB_5_High (lsSet LevelName.ORB_5_15_High (some a) m)) := by
  unfold mergeHighs
  rw [h5, h15]
  simp [hab]

theorem mergeHighs_some_ne (m : LevelSet) (a b : ℚ)
    (h5 : m LevelName.ORB_5_High = some a) (h15 : m LevelName.ORB_15_High = some b)
    (hab : a ≠ b) : mergeHighs m = m := by
  unfold mergeHighs
  rw [h5, h15]
  simp [hab]

theorem mergeLows_none5 (m : LevelSet) (h : m LevelName.ORB_5_Low = none) :
    mergeLows m = m := by
  unfold mergeLows
  rw [h]

theorem mergeLows_none15 (m : LevelSet) (h : m LevelName.ORB_15_Low = none) :
    mergeLows m = m := by
  unfold mergeLows
  rw [h]
  rcases m LevelName.ORB_5_Low with _ | a <;> rfl

theorem mergeLows_some_eq (m : LevelSet) (a b : ℚ)
    (h5 : m LevelName.ORB_5_Low = some a) (h15 : m LevelName.ORB_15_Low = some b)
    (hab : a = b) :
    mergeLows m =
      lsPop LevelName.ORB_15_Low
        (lsPop LevelName.ORB_5_Low (lsSet LevelName.ORB_5_15_Low (some a) m)) := by
  unfold mergeLows
  rw [h5, h15]
  simp [hab]

theorem mergeLows_some_ne (m : LevelSet) (a b : ℚ)
    (h5 : m LevelName.ORB_5_Low = some a) (h15 : m LevelName.ORB_15_Low = some b)
    (hab : a ≠ b) : mergeLows m = m := by
  unfold mergeLows
  rw [h5, h15]
  simp [hab]

theorem mergeHighs_fix (m m' : LevelSet)
    (e5 : m' LevelName.ORB_5_High = mergeHighs m LevelName.ORB_5_High)
    (e15 : m' LevelName.ORB_15_High = mergeHighs m LevelName.ORB_15_High) :
    mergeHighs m' = m' := by
  rcases h5 : m LevelName.ORB_5_High with _ | a <;>
    rcases h15 : m LevelName.ORB_15_High with _ | b
  · rw [mergeHighs_none5 m h5] at e5
    exact mergeHighs_none5 m' (e5.trans h5)
  · rw [mergeHighs_none5 m h5] at e5
    exact mergeHighs_none5 m' (e5.trans h5)
  · rw [mergeHighs_none15 m h15] at e15
    exact mergeHighs_none15 m' (e15.trans h15)
  · by_cases hab : a = b
    · rw [mergeHighs_some_eq m a b h5 h15 hab] at e5
      simp only [lsPop_apply, lsSet_apply] at e5
      norm_num at e5
      exact mergeHighs_none5 m' e5
    · rw [mergeHighs_some_ne m a b h5 h15 hab] at e5 e15
      exact mergeHighs_some_ne m' a b (e5.trans h5) (e15.trans h15) hab

theorem mergeLows_fix (m m' : LevelSet)
    (e5 : m' LevelName.ORB_5_Low = mergeLows m LevelName.ORB_5_Low)
    (e15 : m' LevelName.ORB_15_Low = mergeLows m LevelName.ORB_15_Low) :
    mergeLows m' = m' := by
  rcases h5 : m LevelName.ORB_5_Low with _ | a <;>
    rcases h15 : m LevelName.ORB_15_Low with _ | b
  · rw [mergeLows_none5 m h5] at e5
    exact mergeLows_none5 m' (e5.trans h5)
  · rw [mergeLows_none5 m h5] at e5
    exact mergeLows_none5 m' (e5.trans h5)
  · rw [mergeLows_none15 m h15] at e15
    exact mergeLows_none15 m' (e15.trans h15)
  · by_cases hab : a = b
    · rw [mergeLows_some_eq m a b h5 h15 hab] at e5
      simp only [lsPop_apply, lsSet_apply] at e5
      norm_num at e5
      exact mergeLows_none5 m' e5
    · rw [mergeLows_some_ne m a b h5 h15 hab] at e5 e15
      exact mergeLows_some_ne m' a b (e5.trans h5) (e15.trans h15) hab

/-- Claim C7: the level-merging operation is idempotent: for every LevelSet
L, merge(merge(L)) = merge(L). -/
theorem merge_identical_levels_idempotent :
    ∀ L : LevelSet, merge_identical_levels (merge_identical_levels L) = merge_identical_levels L := by
  intro L
  unfold merge_identical_levels
  have hHfix : mergeHighs (mergeLows (mergeHighs L)) = mergeLows (mergeHighs L) :=
    mergeHighs_fix L (mergeLows (mergeHighs L))
      (mergeLows_other _ _ (by simp) (by simp) (by simp))
      (mergeLows_other _ _ (by simp) (by simp) (by simp))
  rw [hHfix]
  exact mergeLows_fix (mergeHighs L) (mergeLows (mergeHighs L)) rfl rfl

/-- Claim C8: merge treats the High pair and the Low pair independently —
for each of {High, Low}, when both ORB_5 and ORB_15 levels are present and
exactly equal, both keys are replaced by the single combined key with the
same value; otherwise both keys (and the combined key) are left untouched;
and on the spec's example the highs merge while the lows do not. -/
theorem merge_treats_high_low_independently :
    (∀ (L : LevelSet) (a b : ℚ),
       L LevelName.ORB_5_High = some a → L LevelName.ORB_15_High = some b →
       ((a = b →
           merge_identical_levels L LevelName.ORB_5_15_High = some a ∧
           merge_identical_levels L LevelName.ORB_5_High = none ∧
           merge_identical_levels L LevelName.ORB_15_High = none) ∧
        (a ≠ b →
           merge_identical_levels L LevelName.ORB_5_High = some a ∧
           merge_identical_levels L LevelName.ORB_15_High = some b ∧
           merge_identical_levels L LevelName.ORB_5_15_High = L LevelName.ORB_5_15_High)))
    ∧ (∀ L : LevelSet,
       (L LevelName.ORB_5_High = none ∨ L LevelName.ORB_15_High = none) →
       merge_identical_levels L LevelName.ORB_5_High = L LevelName.ORB_5_High ∧
       merge_identical_levels L LevelName.ORB_15_High = L LevelName.ORB_15_High)
    ∧ (∀ (L : LevelSet) (a b : ℚ),
       L LevelName.ORB_5_Low = some a → L LevelName.ORB_15_Low = some b →
       ((a = b →
           merge_identical_levels L LevelName.ORB_5_15_Low = some a ∧
           merge_identical_levels L LevelName.ORB_5_Low = none ∧
           merge_identical_levels L LevelName.ORB_15_Low = none) ∧
        (a ≠ b →
           merge_identical_levels L LevelName.ORB_5_Low = some a ∧
           merge_identical_levels L LevelName.ORB_15_Low = some b ∧
           merge_identical_levels L LevelName.ORB_5_15_Low = L LevelName.ORB_5_15_Low)))
    ∧ (∀ L : LevelSet,
       (L LevelName.ORB_5_Low = none ∨ L LevelName.ORB_15_Low = none) →
       merge_identical_levels L LevelName.ORB_5_Low = L LevelName.ORB_5_Low ∧
       merge_identical_levels L LevelName.ORB_15_Low = L LevelName.ORB_15_Low)
    ∧ merge_identical_levels mergeExampleLevels = mergeExampleMerged := by
  refine ⟨?_, ?_, ?_, ?_, ?_⟩
  · intro L a b h5 h15
    constructor
    · intro hab
      unfold merge_identical_levels
      rw [mergeHighs_some_eq L a b h5 h15 hab]
      rw [mergeLows_other _ _ (by simp) (by simp) (by simp),
          mergeLows_other _ _ (by simp) (by simp) (by simp),
          mergeLows_other _ _ (by simp) (by simp) (by simp)]
      simp [lsPop_apply, lsSet_apply]
    · intro hab
      unfold merge_identical_levels
      rw [mergeHighs_some_ne L a b h5 h15 hab]
      rw [mergeLows_other _ _ (by simp) (by simp) (by simp),
          mergeLows_other _ _ (by simp) (by simp) (by simp),
          mergeLows_other _ _ (by simp) (by simp) (by simp)]
      exact ⟨h5, h15, rfl⟩
  · intro L h
    unfold merge_identical_levels
    have hH : mergeHighs L = L := by
      rcases h with h | h
      · exact mergeHighs_none5 L h
      · exact mergeHighs_none15 L h
    rw [hH, mergeLows_other _ _ (by simp) (by simp) (by simp),
        mergeLows_other _ _ (by simp) (by simp) (by simp)]
    exact ⟨rfl, rfl⟩
  · intro L a b h5 h15
    have a5 : mergeHighs L LevelName.ORB_5_Low = some a :=
      (mergeHighs_other L _ (by simp) (by simp) (by simp)).trans h5
    have a15 : mergeHighs L LevelName.ORB_15_Low = some b :=
      (mergeHighs_other L _ (by simp) (by simp) (by simp)).trans h15
    constructor
    · intro hab
      unfold merge_identical_levels
      rw [mergeLows_some_eq (mergeHighs L) a b a5 a15 hab]
      simp [lsPop_apply, lsSet_apply]
    · intro hab
      unfold merge_identical_levels
      rw [mergeLows_some_ne (mergeHighs L) a b a5 a15 hab]
      exact ⟨a5, a15, mergeHighs_other L _ (by simp) (by simp) (by simp)⟩
  · intro L h
    unfold merge_identical_levels
    have hL : mergeLows (mergeHighs L) = mergeHighs L := by
      rcases h with h | h
      · exact mergeLows_none5 _ ((mergeHighs_other L _ (by simp) (by simp) (by simp)).trans h)
      · exact mergeLows_none15 _ ((mergeHighs_other L _ (by simp) (by simp) (by simp)).trans h)
    rw [hL, mergeHighs_other L _ (by simp) (by simp) (by simp),
        mergeHighs_other L _ (by simp) (by simp) (by simp)]
    exact ⟨rfl, rfl⟩
  · have hH : mergeHighs mergeExampleLevels =
        lsPop LevelName.ORB_15_High
          (lsPop LevelName.ORB_5_High
            (lsSet LevelName.ORB_5_15_High (some (203 / 2)) mergeExampleLevels)) :=
      mergeHighs_some_eq mergeExampleLevels (203 / 2) (203 / 2) rfl rfl rfl
    have a5 : mergeHighs mergeExampleLevels LevelName.ORB_5_Low = some 100 :=
      (mergeHighs_other mergeExampleLevels _ (by simp) (by simp) (by simp)).trans rfl
    have a15 : mergeHighs mergeExampleLevels LevelName.ORB_15_Low = some (401 / 4) :=
      (mergeHighs_other mergeExampleLevels _ (by simp) (by simp) (by simp)).trans rfl
    have hL : mergeLows (mergeHighs mergeExampleLevels) = mergeHighs mergeExampleLevels :=
      mergeLows_some_ne _ 100 (401 / 4) a5 a15 (by norm_num)
    unfold merge_identical_levels
    rw [hL, hH]
    funext k
    cases k <;> simp [lsPop_apply, lsSet_apply] <;> rfl

/-- Witness for C8 at the spec's concrete example. -/
theorem merge_treats_high_low_independently_witness :
    merge_identical_levels mergeExampleLevels LevelName.ORB_5_15_High = some (203 / 2) ∧
    merge_identical_levels mergeExampleLevels LevelName.ORB_5_High = none ∧
    merge_identical_levels mergeExampleLevels LevelName.ORB_15_High = none :=
  (merge_treats_high_low_independently.1 mergeExampleLevels (203 / 2) (203 / 2) rfl rfl).1 rfl

/-- Claim C9: signal classification uses strict inequalities at the
boundaries (exactly 70 / 30 for RSI and exactly 0 for the MACD histogram
classify as Neutral), and a series whose latest value is missing
contributes neither its signal key nor its value key. -/
theorem get_indicator_signals_strict_and_omitting :
    ∀ ind : Indicators,
      (∀ (xs : List PF) (q : ℚ), ind.rsi = some xs → xs.getLast? = some (PF.fin q) →
        ((70 < q →
            (get_indicator_signals ind).rsi_signal = some RsiSig.Overbought ∧
            (get_indicator_signals ind).rsi_value = some (PF.fin q)) ∧
         (q < 30 →
            (get_indicator_signals ind).rsi_signal = some RsiSig.Oversold ∧
            (get_indicator_signals ind).rsi_value = some (PF.fin q)) ∧
         (¬ 70 < q → ¬ q < 30 →
            (get_indicator_signals ind).rsi_signal = some RsiSig.Neutral ∧
            (get_indicator_signals ind).rsi_value = some (PF.fin q))))
      ∧ (∀ xs : List PF, ind.rsi = some xs → xs.getLast? = some PF.nan →
          (get_indicator_signals ind).rsi_signal = none ∧
          (get_indicator_signals ind).rsi_value = none)
      ∧ (∀ (xs : List PF) (q : ℚ), ind.macd_histogram = some xs →
          xs.getLast? = some (PF.fin q) →
          ((0 < q →
              (get_indicator_signals ind).macd_signal = some MacdSig.Bullish ∧
              (get_indicator_signals ind).macd_histogram_value = some (PF.fin q)) ∧
           (q < 0 →
              (get_indicator_signals ind).macd_signal = some MacdSig.Bearish ∧
              (get_indicator_signals ind).macd_histogram_value = some (PF.fin q)) ∧
           (q = 0 →
              (get_indicator_signals ind).macd_signal = some MacdSig.Neutral ∧
              (get_indicator_signals ind).macd_histogram_value = some (PF.fin q))))
      ∧ (∀ xs : List PF, ind.macd_histogram = some xs → xs.getLast? = some PF.nan →
          (get_indicator_signals ind).macd_signal = none ∧
          (get_indicator_signals ind).macd_histogram_value = none) := by
  intro ind
  refine ⟨?_, ?_, ?_, ?_⟩
  · intro xs q h1 h2
    refine ⟨?_, ?_, ?_⟩
    · intro hq
      simp [get_indicator_signals, h1, h2, PF.isNan, PF.gtB, PF.ltB, hq]
    · intro hq
      have hq' : ¬ (70 : ℚ) < q := by linarith
      simp [get_indicator_signals, h1, h2, PF.isNan, PF.gtB, PF.ltB, hq, hq']
    · intro hq1 hq2
      simp [get_indicator_signals, h1, h2, PF.isNan, PF.gtB, PF.ltB, hq1, hq2]
  · intro xs h1 h2
    simp [get_indicator_signals, h1, h2, PF.isNan]
  · intro xs q h1 h2
    refine ⟨?_, ?_, ?_⟩
    · intro hq
      simp [get_indicator_signals, h1, h2, PF.isNan, PF.gtB, PF.ltB, hq]
    · intro hq
      have hq' : ¬ (0 : ℚ) < q := by linarith
      simp [get_indicator_signals, h1, h2, PF.isNan, PF.gtB, PF.ltB, hq, hq']
    · intro hq
      simp [get_indicator_signals, h1, h2, PF.isNan, PF.gtB, PF.ltB, hq]
  · intro xs h1 h2
    simp [get_indicator_signals, h1, h2, PF.isNan]

/-- Witness for C9: RSI exactly 70 and MACD histogram exactly 0 both
classify as Neutral, and a missing latest VWAP-style series value leads to
omission (here shown through the RSI branch on a `nan`-ended series). -/
theorem get_indicator_signals_witness :
    ((get_indicator_signals ⟨some [PF.fin 70], some [PF.fin 0], none⟩).rsi_signal =
        some RsiSig.Neutral ∧
      (get_indicator_signals ⟨some [PF.fin 70], some [PF.fin 0], none⟩).rsi_value =
        some (PF.fin 70)) ∧
    ((get_indicator_signals ⟨some [PF.fin 70], some [PF.fin 0], none⟩).macd_signal =
        some MacdSig.Neutral) ∧
    ((get_indicator_signals ⟨some [PF.nan], some [PF.fin 0], none⟩).rsi_signal = none ∧
      (get_indicator_signals ⟨some [PF.nan], some [PF.fin 0], none⟩).rsi_value = none) := by
  refine ⟨?_, ?_, ?_⟩
  · exact ((get_indicator_signals_strict_and_omitting
      ⟨some [PF.fin 70], some [PF.fin 0], none⟩).1 [PF.fin 70] 70 rfl rfl).2.2
      (by norm_num) (by norm_num)
  · exact (((get_indicator_signals_strict_and_omitting
      ⟨some [PF.fin 70], some [PF.fin 0], none⟩).2.2.1 [PF.fin 0] 0 rfl rfl).2.2 rfl).1
  · exact (get_indicator_signals_strict_and_omitting
      ⟨some [PF.nan], some [PF.fin 0], none⟩).2.1 [PF.nan] rfl rfl

theorem extractWindow_eq_extractSpec (df : List Bar) (target ws we : ℕ) :
    extractWindow df target ws we = extractSpec df target ws we := by
  have hsub : df.filter
      (fun b => (decide (ws ≤ b.tod) && decide (b.tod ≤ we)) && decide (b.day = target)) =
      (betweenTime ws we df).filter (fun b => decide (b.day = target)) := by
    rw [betweenTime, List.filter_filter]
    exact List.filter_congr (fun b _ => Bool.and_comm _ _)
  by_cases h1 : (betweenTime ws we df).isEmpty
  · have hdfw : betweenTime ws we df = [] := List.isEmpty_iff.mp h1
    simp [extractWindow, extractSpec, hsub, hdfw]
  · simp only [extractWindow, extractSpec, hsub, h1]
    simp

/-- Claim C3: the two-stage window extraction equals the one-pass filter of
the claim — the extrema are taken over exactly the bars whose time of day
lies within the window (inclusive on both ends, regardless of date) and
whose session date equals the target; an empty subset (in particular a
target date with no bars at all) yields (absent, absent); and the
5-minute opening window of the spec's example yields (101.2, 100.5). -/
theorem extract_window_extrema :
    (∀ (df : List Bar) (target ws we : ℕ),
        extractWindow df target ws we = extractSpec df target ws we)
    ∧ (∀ (df : List Bar) (target ws we : ℕ),
        (∀ b ∈ df, b.day ≠ target) → extractWindow df target ws we = (none, none))
    ∧ calculate_orb_levels orbExampleBars 15 ORB_5_END = (some 101.2, some 100.5) := by
  refine ⟨extractWindow_eq_extractSpec, ?_, ?_⟩
  · intro df target ws we h
    rw [extractWindow_eq_extractSpec]
    have hnil : df.filter
        (fun b => (decide (ws ≤ b.tod) && decide (b.tod ≤ we)) && decide (b.day = target)) = [] :=
      List.filter_eq_nil_iff.mpr (fun b hb => by simp [h b hb])
    simp [extractSpec, hnil]
  · rw [calculate_orb_levels, extractWindow_eq_extractSpec]
    simp only [extractSpec, orbExampleBars, MARKET_OPEN, ORB_5_END]
    norm_num [seriesMax, seriesMin, List.foldl, max_def, min_def]

/-- Witness for C3 at a concrete empty-target-date input. -/
theorem extract_window_extrema_witness :
    extractWindow orbExampleBars 99 MARKET_OPEN ORB_5_END = (none, none) :=
  extract_window_extrema.2.1 orbExampleBars 99 MARKET_OPEN ORB_5_END
    (by intro b hb; fin_cases hb <;> simp [orbExampleBars])

theorem length_ewmGo (a : ℚ) : ∀ (xs : List ℚ) (p : ℚ), (ewmGo a p xs).length = xs.length := by
  intro xs
  induction xs with
  | nil => intro p; rfl
  | cons y ys ih => intro p; simp [ewmGo, ih]

theorem length_ewmMean (span : ℕ) (l : List ℚ) : (ewmMean span l).length = l.length := by
  cases l with
  | nil => rfl
  | cons x xs => simp [ewmMean, length_ewmGo]

theorem ewmGo_step (a : ℚ) (xs : List ℚ) : ∀ (p : ℚ) (i : ℕ) (v x : ℚ),
    (p :: ewmGo a p xs)[i]? = some v → xs[i]? = some x →
    (p :: ewmGo a p xs)[i + 1]? = some (a * x + (1 - a) * v) := by
  induction xs with
  | nil =>
    intro p i v x h1 h2
    simp at h2
  | cons y ys ih =>
    intro p i v x h1 h2
    cases i with
    | zero =>
      simp only [List.getElem?_cons_zero, Option.some.injEq] at h1 h2
      subst h1
      subst h2
      simp [ewmGo]
    | succ i =>
      have h1' : ((a * y + (1 - a) * p) :: ewmGo a (a * y + (1 - a) * p) ys)[i]? = some v := by
        simpa [ewmGo] using h1
      have h2' : ys[i]? = some x := by simpa using h2
      have hstep := ih (a * y + (1 - a) * p) i v x h1' h2'
      simpa [ewmGo] using hstep

/-- Claim C6: each EMA used by MACD follows the adjust=false recurrence
`ema[i+1] = α·x[i+1] + (1−α)·ema[i]` with `α = 2/(span+1)` and is seeded at
the first input; consequently the MACD line at index 0 is 0, and the MACD
line, signal line and histogram are all full-length (defined from the first
bar onward). -/
theorem macd_ema_recurrence_and_seed :
    (∀ (span : ℕ) (x : ℚ) (xs : List ℚ), (ewmMean span (x :: xs))[0]? = some x)
    ∧ (∀ (span : ℕ) (l : List ℚ) (i : ℕ) (a b : ℚ),
        (ewmMean span l)[i]? = some a → l[i + 1]? = some b →
        (ewmMean span l)[i + 1]? =
          some (2 / ((span : ℚ) + 1) * b + (1 - 2 / ((span : ℚ) + 1)) * a))
    ∧ (∀ (close : List ℚ) (f s g : ℕ), close ≠ [] →
        (calculate_macd close f s g).1[0]? = some 0)
    ∧ (∀ (close : List ℚ) (f s g : ℕ),
        (calculate_macd close f s g).1.length = close.length ∧
        (calculate_macd close f s g).2.1.length = close.length ∧
        (calculate_macd close f s g).2.2.length = close.length) := by
  refine ⟨?_, ?_, ?_, ?_⟩
  · intro span x xs
    simp [ewmMean]
  · intro span l i a b h1 h2
    cases l with
    | nil => simp at h2
    | cons x xs =>
      have h2' : xs[i]? = some b := by simpa using h2
      exact ewmGo_step (2 / ((span : ℚ) + 1)) xs x i a b h1 h2'
  · intro close f s g h
    cases close with
    | nil => exact absurd rfl h
    | cons c rest =>
      simp [calculate_macd, ewmMean]
  · intro close f s g
    refine ⟨?_, ?_, ?_⟩ <;>
      simp [calculate_macd, List.length_zipWith, length_ewmMean, min_self]

/-- Witness for C6 at concrete inputs: seed, first recurrence step and the
zero MACD seed on a two-point series. -/
theorem macd_ema_recurrence_and_seed_witness :
    (ewmMean 9 [(5 : ℚ)])[0]? = some 5 ∧
    (ewmMean 1 [(1 : ℚ), 2])[1]? =
      some (2 / ((1 : ℚ) + 1) * 2 + (1 - 2 / ((1 : ℚ) + 1)) * 1) ∧
    (calculate_macd [(3 : ℚ), 4] 12 26 9).1[0]? = some 0 :=
  ⟨macd_ema_recurrence_and_seed.1 9 5 [],
   macd_ema_recurrence_and_seed.2.1 1 [1, 2] 0 1 2
     (macd_ema_recurrence_and_seed.1 1 1 [2]) rfl,
   macd_ema_recurrence_and_seed.2.2.1 [3, 4] 12 26 9 (by simp)⟩


theorem prevDayLoop_none_or_some (df : List Bar) :
    ∀ ds : List ℕ,
      prevDayLoop df ds = (none, none) ∨ ∃ a b, prevDayLoop df ds = (some a, some b) := by
  intro ds
  induction ds with
  | nil => exact Or.inl rfl
  | cons d rest ih =>
    cases hr : betweenTime MARKET_OPEN MARKET_CLOSE (df.filter (fun b => decide (b.day = d))) with
    | nil =>
      have hstep : prevDayLoop df (d :: rest) = prevDayLoop df rest := by
        simp [prevDayLoop, hr]
      rw [hstep]
      exact ih
    | cons x xs =>
      right
      refine ⟨(xs.map Bar.high).foldl max x.high, (xs.map Bar.low).foldl min x.low, ?_⟩
      simp [prevDayLoop, hr, seriesMax, seriesMin]

theorem extractWindow_none_or_some (df : List Bar) (target ws we : ℕ) :
    extractWindow df target ws we = (none, none) ∨
      ∃ a b, extractWindow df target ws we = (some a, some b) := by
  by_cases h1 : (betweenTime ws we df).isEmpty
  · left
    simp [extractWindow, h1]
  · cases h2 : (betweenTime ws we df).filter (fun b => decide (b.day = target)) with
    | nil => left; simp [extractWindow, h1, h2]
    | cons x xs =>
      right
      refine ⟨(xs.map Bar.high).foldl max x.high, (xs.map Bar.low).foldl min x.low, ?_⟩
      simp [extractWindow, h1, h2, seriesMax, seriesMin]

/-- Claim C10: the orchestrated LevelSet contains either both members of
each high/low pair or neither: PDH iff PDL, PM_High iff PM_Low, ORB_5_High
iff ORB_5_Low, ORB_15_High iff ORB_15_Low. -/
theorem calculate_levels_pairs :
    ∀ df : List Bar,
      ((calculate_levels df LevelName.PDH).isSome ↔
        (calculate_levels df LevelName.PDL).isSome) ∧
      ((calculate_levels df LevelName.PM_High).isSome ↔
        (calculate_levels df LevelName.PM_Low).isSome) ∧
      ((calculate_levels df LevelName.ORB_5_High).isSome ↔
        (calculate_levels df LevelName.ORB_5_Low).isSome) ∧
      ((calculate_levels df LevelName.ORB_15_High).isSome ↔
        (calculate_levels df LevelName.ORB_15_Low).isSome) := by
  intro df
  rcases hD : (sortedUniqueDates (df.map Bar.day)).getLast? with _ | today
  · simp [calculate_levels, hD, emptyLS]
  · have hP := prevDayLoop_none_or_some df
      ((sortedUniqueDates (df.map Bar.day)).dropLast.reverse)
    have hPM := extractWindow_none_or_some df today PREMARKET_OPEN MARKET_OPEN
    have h5 := extractWindow_none_or_some df today MARKET_OPEN ORB_5_END
    have h15 := extractWindow_none_or_some df today MARKET_OPEN ORB_15_END
    rcases hP with hP | ⟨pa, pb, hP⟩ <;> rcases hPM with hPM | ⟨ma, mb, hPM⟩ <;>
      rcases h5 with h5 | ⟨fa, fb, h5⟩ <;> rcases h15 with h15 | ⟨sa, sb, h15⟩ <;>
      simp [calculate_levels, hD, find_previous_trading_day, calculate_premarket_levels,
            calculate_orb_levels, hP, hPM, h5, h15, lsSet, emptyLS]

theorem mem_insertSortedNat : ∀ (l : List ℕ) (x y : ℕ),
    y ∈ insertSortedNat x l ↔ y = x ∨ y ∈ l := by
  intro l x y
  induction l with
  | nil => simp [insertSortedNat]
  | cons z zs ih =>
    by_cases h1 : x < z
    · simp [insertSortedNat, h1]
    · by_cases h2 : x = z
      · subst h2
        simp [insertSortedNat, h1]
      · simp [insertSortedNat, h1, h2, ih]
        tauto

theorem pairwise_insertSortedNat : ∀ (l : List ℕ) (x : ℕ),
    l.Pairwise (· < ·) → (insertSortedNat x l).Pairwise (· < ·) := by
  intro l x
  induction l with
  | nil =>
    intro _
    simp [insertSortedNat]
  | cons z zs ih =>
    intro hp
    rcases List.pairwise_cons.mp hp with ⟨hz, hzs⟩
    by_cases h1 : x < z
    · have : insertSortedNat x (z :: zs) = x :: z :: zs := by simp [insertSortedNat, h1]
      rw [this]
      refine List.Pairwise.cons ?_ hp
      intro a ha
      rcases List.mem_cons.mp ha with rfl | ha'
      · exact h1
      · exact h1.trans (hz a ha')
    · by_cases h2 : x = z
      · have : insertSortedNat x (z :: zs) = z :: zs := by simp [insertSortedNat, h1, h2]
        rw [this]
        exact hp
      · have hzx : z < x := lt_of_le_of_ne (not_lt.mp h1) (Ne.symm h2)
        have : insertSortedNat x (z :: zs) = z :: insertSortedNat x zs := by
          simp [insertSortedNat, h1, h2]
        rw [this]
        refine List.Pairwise.cons ?_ (ih hzs)
        intro a ha
        rcases (mem_insertSortedNat zs x a).mp ha with rfl | ha'
        · exact hzx
        · exact hz a ha'

theorem pairwise_sortedUniqueDates (l : List ℕ) : (sortedUniqueDates l).Pairwise (· < ·) := by
  induction l with
  | nil => simp [sortedUniqueDates]
  | cons x xs ih => exact pairwise_insertSortedNat _ x ih

theorem mem_of_getLast?_nat {l : List ℕ} {t : ℕ} (h : l.getLast? = some t) : t ∈ l := by
  rcases List.mem_getLast?_eq_getLast (l := l) (x := t) h with ⟨hne, rfl⟩
  exact List.getLast_mem hne

theorem dropLast_eq_filter_of_sorted : ∀ l : List ℕ, l.Pairwise (· < ·) →
    ∀ t, l.getLast? = some t → l.dropLast = l.filter (fun d => decide (d < t)) := by
  intro l
  induction l with
  | nil =>
    intro _ t h
    simp at h
  | cons a rest ih =>
    intro hp t h
    cases rest with
    | nil =>
      simp only [List.getLast?_singleton, Option.some.injEq] at h
      subst h
      simp [List.dropLast]
    | cons b rest2 =>
      have hgl : (b :: rest2).getLast? = some t := by
        rw [← h]
        exact List.getLast?_cons_cons.symm
      have ht : t ∈ b :: rest2 := mem_of_getLast?_nat hgl
      rcases List.pairwise_cons.mp hp with ⟨ha, hp'⟩
      have hat : a < t := ha t ht
      have hd : (a :: b :: rest2).dropLast = a :: (b :: rest2).dropLast := rfl
      rw [hd, ih hp' t hgl]
      simp [List.filter_cons, hat]

/-- Claim C1 (amended): `find_previous_trading_day` ignores its `today_date`
argument and always scans all session dates except the last, in descending
order; therefore whenever `today` is the latest session date present — the
only way the orchestrator calls it — it coincides with the claimed scan of
the dates strictly before `today` (skipping dates with no regular-hours
bars, returning the first non-empty date's extrema, else (absent, absent)). -/
theorem find_previous_trading_day_latest :
    ∀ (df : List Bar) (today : ℕ),
      (sortedUniqueDates (df.map Bar.day)).getLast? = some today →
      find_previous_trading_day df today = prevTradingDaySpec df today := by
  intro df today h
  simp only [find_previous_trading_day, prevTradingDaySpec]
  rw [dropLast_eq_filter_of_sorted _ (pairwise_sortedUniqueDates _) today h]

/-- Counterexample to C1 as stated: with session dates {1, 2, 3} and
`today = 1` (a session date), the code returns day 2's extrema — a date
after `today` — while the claimed scan of the dates strictly before `today`
returns (absent, absent). -/
theorem find_previous_trading_day_ignores_today :
    find_previous_trading_day threeDayBars 1 = (some 5, some 4) ∧
    prevTradingDaySpec threeDayBars 1 = (none, none) := by
  constructor <;> decide

/-- Witness for C1 (amended) at the concrete three-day input with `today`
the latest session date. -/
theorem find_previous_trading_day_latest_witness :
    (sortedUniqueDates (threeDayBars.map Bar.day)).getLast? = some 3 ∧
    find_previous_trading_day threeDayBars 3 = prevTradingDaySpec threeDayBars 3 :=
  ⟨by decide, find_previous_trading_day_latest threeDayBars 3 (by decide)⟩

theorem getD_rangeMap {α : Type} (f : ℕ → α) (n i : ℕ) (d : α) (h : i < n) :
    ((List.range n).map f).getD i d = f i := by
  rw [List.getD_eq_getElem?_getD, List.getElem?_map]
  rw [List.getElem?_range h]
  rfl

theorem getD_map {α β : Type} (f : α → β) (l : List α) (i : ℕ) (d : β) (d' : α)
    (h : i < l.length) : (l.map f).getD i d = f (l.getD i d') := by
  rw [List.getD_eq_getElem?_getD, List.getElem?_map, List.getElem?_eq_getElem h,
      List.getD_eq_getElem?_getD, List.getElem?_eq_getElem h]
  rfl

theorem sum_map_range' (k : ℕ) : ∀ (a : ℕ) (g : ℕ → ℚ),
    ((List.range' a k).map g).sum = ∑ j in Finset.range k, g (a + j) := by
  induction k with
  | zero => intro a g; simp
  | succ k ih =>
    intro a g
    rw [List.range'_succ a k 1]
    simp only [List.map_cons, List.sum_cons, ih (a + 1) g]
    rw [Finset.sum_range_succ']
    have h1 : ∀ j, a + 1 + j = a + (j + 1) := by omega
    simp only [h1, Nat.add_zero]
    exact (add_comm _ _)

theorem length_diffSer (xs : List ℚ) : (diffSer xs).length = xs.length := by
  simp [diffSer]

theorem length_rollingMean (p : ℕ) (xs : List PF) : (rollingMean p xs).length = xs.length := by
  simp [rollingMean]

theorem length_seriesZip (f : PF → PF → PF) (a b : List PF) :
    (seriesZip f a b).length = min a.length b.length := by
  simp [seriesZip]

theorem rollingMean_getD (p : ℕ) (xs : List PF) (i : ℕ) (h : i < xs.length) :
    (rollingMean p xs).getD i PF.nan = windowMean p xs i :=
  getD_rangeMap (windowMean p xs) xs.length i PF.nan h

theorem seriesZip_getD (f : PF → PF → PF) (a b : List PF) (i : ℕ)
    (h : i < min a.length b.length) :
    (seriesZip f a b).getD i PF.nan = f (a.getD i PF.nan) (b.getD i PF.nan) :=
  getD_rangeMap (fun i => f (a.getD i PF.nan) (b.getD i PF.nan)) _ i PF.nan h

theorem diffSer_getD (xs : List ℚ) (i : ℕ) (h : i < xs.length) :
    (diffSer xs).getD i PF.nan =
      if i = 0 then PF.nan else PF.fin (xs.getD i 0 - xs.getD (i - 1) 0) :=
  getD_rangeMap _ xs.length i PF.nan h

theorem gain_getD (close : List ℚ) (i : ℕ) (h : i < close.length) :
    ((diffSer close).map (fun d => if PF.ltB (PF.fin 0) d then d else PF.fin 0)).getD i PF.nan
      = PF.fin (gainQ close i) := by
  have hlen : i < (diffSer close).length := by rw [length_diffSer]; exact h
  rw [getD_map _ _ i PF.nan PF.nan hlen, diffSer_getD close i h]
  by_cases h0 : i = 0
  · simp [h0, gainQ, PF.ltB]
  · rw [if_neg h0]
    unfold gainQ
    rw [if_neg h0]
    simp only [PF.ltB, decide_eq_true_eq]
    split_ifs <;> rfl

theorem loss_getD (close : List ℚ) (i : ℕ) (h : i < close.length) :
    ((diffSer close).map
        (fun d => PF.neg (if PF.ltB d (PF.fin 0) then d else PF.fin 0))).getD i PF.nan
      = PF.fin (lossQ close i) := by
  have hlen : i < (diffSer close).length := by rw [length_diffSer]; exact h
  rw [getD_map _ _ i PF.nan PF.nan hlen, diffSer_getD close i h]
  by_cases h0 : i = 0
  · simp [h0, lossQ, PF.ltB, PF.neg]
  · rw [if_neg h0]
    unfold lossQ
    rw [if_neg h0]
    simp only [PF.ltB, decide_eq_true_eq]
    split_ifs with hd
    · rfl
    · show PF.neg (PF.fin 0) = PF.fin 0
      norm_num [PF.neg]

theorem windowMean_nan (p : ℕ) (xs : List PF) (i : ℕ) (h : ¬ p ≤ i + 1) :
    windowMean p xs i = PF.nan := by
  unfold windowMean
  rw [if_neg]
  intro hc
  exact h hc.1

theorem windowMean_of_entries (p : ℕ) (xs : List PF) (i : ℕ) (g : ℕ → ℚ)
    (hpi : p ≤ i + 1)
    (hent : ∀ j, i + 1 - p ≤ j → j ≤ i → xs.getD j PF.nan = PF.fin (g j)) :
    windowMean p xs i = PF.fin ((∑ j in Finset.range p, g (i + 1 - p + j)) / p) := by
  unfold windowMean
  have hmin : min p (i + 1) = p := min_eq_left hpi
  rw [hmin]
  have hw : (List.range' (i + 1 - p) p).map (fun j => xs.getD j PF.nan) =
      (List.range' (i + 1 - p) p).map (fun j => PF.fin (g j)) := by
    apply List.map_congr_left
    intro j hj
    rcases List.mem_range'_1.mp hj with ⟨hj1, hj2⟩
    exact hent j hj1 (by omega)
  rw [hw]
  have hall : ((List.range' (i + 1 - p) p).map (fun j => PF.fin (g j))).all PF.isFin = true := by
    rw [List.all_eq_true]
    intro x hx
    rcases List.mem_map.mp hx with ⟨j, _, rfl⟩
    rfl
  rw [if_pos ⟨hpi, hall⟩]
  congr 1
  congr 1
  rw [List.map_map]
  have hcomp : (PF.toQ ∘ fun j => PF.fin (g j)) = g := by
    funext j
    rfl
  rw [hcomp]
  exact sum_map_range' p (i + 1 - p) g

theorem gainQ_nonneg (close : List ℚ) (i : ℕ) : 0 ≤ gainQ close i := by
  unfold gainQ
  split_ifs with h1 h2
  · norm_num
  · linarith
  · norm_num

theorem lossQ_nonneg (close : List ℚ) (i : ℕ) : 0 ≤ lossQ close i := by
  unfold lossQ
  split_ifs with h1 h2
  · norm_num
  · linarith
  · norm_num

/-- Full per-index characterization of `calculate_rsi`: missing while the
trailing window is shorter than `period`; from index `period − 1` onward,
missing exactly when the window's gains and losses are all zero, saturated
at 100 when only the losses are all zero, and the textbook value otherwise. -/
theorem calculate_rsi_getD (close : List ℚ) (p i : ℕ) (hp : 1 ≤ p) (hi : i < close.length) :
    (calculate_rsi close p).getD i PF.nan =
      if p ≤ i + 1 then
        (if (∑ j in Finset.range p, lossQ close (i + 1 - p + j)) = 0 then
          (if (∑ j in Finset.range p, gainQ close (i + 1 - p + j)) = 0 then PF.nan
           else PF.fin 100)
         else
           PF.fin (100 - 100 / (1 +
             ((∑ j in Finset.range p, gainQ close (i + 1 - p + j)) / p) /
             ((∑ j in Finset.range p, lossQ close (i + 1 - p + j)) / p))))
      else PF.nan := by
  have hlen_gain :
      ((diffSer close).map (fun d => if PF.ltB (PF.fin 0) d then d else PF.fin 0)).length
        = close.length := by
    simp [length_diffSer]
  have hlen_loss :
      ((diffSer close).map
          (fun d => PF.neg (if PF.ltB d (PF.fin 0) then d else PF.fin 0))).length
        = close.length := by
    simp [length_diffSer]
  simp only [calculate_rsi]
  rw [getD_map _ _ i PF.nan PF.nan
      (by rw [length_seriesZip, length_rollingMean, length_rollingMean, hlen_gain, hlen_loss,
              min_self]; exact hi)]
  rw [seriesZip_getD _ _ _ i
      (by rw [length_rollingMean, length_rollingMean, hlen_gain, hlen_loss, min_self]; exact hi)]
  rw [rollingMean_getD p _ i (by rw [hlen_gain]; exact hi),
      rollingMean_getD p _ i (by rw [hlen_loss]; exact hi)]
  by_cases hpi : p ≤ i + 1
  · have hG := windowMean_of_entries p _ i (gainQ close) hpi
      (fun j _ hj2 => gain_getD close j (lt_of_le_of_lt hj2 hi))
    have hL := windowMean_of_entries p _ i (lossQ close) hpi
      (fun j _ hj2 => loss_getD close j (lt_of_le_of_lt hj2 hi))
    rw [hG, hL, if_pos hpi]
    have hp0 : (0 : ℚ) < (p : ℚ) := by
      exact_mod_cast Nat.pos_of_ne_zero (by omega)
    have hGnn : 0 ≤ ∑ j in Finset.range p, gainQ close (i + 1 - p + j) :=
      Finset.sum_nonneg fun j _ => gainQ_nonneg close _
    have hLnn : 0 ≤ ∑ j in Finset.range p, lossQ close (i + 1 - p + j) :=
      Finset.sum_nonneg fun j _ => lossQ_nonneg close _
    by_cases hLz : (∑ j in Finset.range p, lossQ close (i + 1 - p + j)) = 0
    · rw [if_pos hLz, hLz]
      by_cases hGz : (∑ j in Finset.range p, gainQ close (i + 1 - p + j)) = 0
      · rw [if_pos hGz, hGz]
        norm_num [PF.div, PF.add, PF.sub, PF.neg]
      · rw [if_neg hGz]
        have hGpos : 0 < (∑ j in Finset.range p, gainQ close (i + 1 - p + j)) / p :=
          div_pos (lt_of_le_of_ne hGnn (Ne.symm hGz)) hp0
        have hGne : (∑ j in Finset.range p, gainQ close (i + 1 - p + j)) / p ≠ 0 :=
          ne_of_gt hGpos
        norm_num [PF.div, hGne, hGpos, PF.add, PF.sub, PF.neg]
    · rw [if_neg hLz]
      have hLpos : 0 < (∑ j in Finset.range p, lossQ close (i + 1 - p + j)) / p :=
        div_pos (lt_of_le_of_ne hLnn (Ne.symm hLz)) hp0
      have hLne : (∑ j in Finset.range p, lossQ close (i + 1 - p + j)) / p ≠ 0 :=
        ne_of_gt hLpos
      have ht : 0 ≤ ((∑ j in Finset.range p, gainQ close (i + 1 - p + j)) / p) /
          ((∑ j in Finset.range p, lossQ close (i + 1 - p + j)) / p) :=
        div_nonneg (div_nonneg hGnn (le_of_lt hp0)) (le_of_lt hLpos)
      have hden : (1 : ℚ) +
          ((∑ j in Finset.range p, gainQ close (i + 1 - p + j)) / p) /
          ((∑ j in Finset.range p, lossQ close (i + 1 - p + j)) / p) ≠ 0 := by
        positivity
      simp [PF.div, hLne, PF.add, hden, PF.sub, PF.neg]
      ring
  · rw [windowMean_nan p _ i hpi, if_neg hpi]
    simp [PF.div, PF.add, PF.sub, PF.neg]

theorem length_calculate_rsi (close : List ℚ) (p : ℕ) :
    (calculate_rsi close p).length = close.length := by
  simp [calculate_rsi, seriesZip, rollingMean, diffSer]

/-- Claim C2 (amended/corrected): the leading `NaN` of `diff` is turned into
a zero gain and a zero loss by the `where` masking, so `avg_gain`/`avg_loss`
are already defined at index `p − 1`: the RSI series is missing at exactly
its first `p − 1` entries, except that an entry at `i ≥ p − 1` is also
missing when the trailing `p` gains and losses are all zero (a 0/0); the
first possible defined RSI value therefore occurs at index `p − 1`, not `p`. -/
theorem rsi_warmup_missing :
    ∀ (close : List ℚ) (p : ℕ), 1 ≤ p →
      (gainQ close 0 = 0 ∧ lossQ close 0 = 0) ∧
      ∀ i, i < close.length →
        ((i + 1 < p → (calculate_rsi close p).getD i PF.nan = PF.nan) ∧
         (p ≤ i + 1 →
           ((∃ q, (calculate_rsi close p).getD i PF.nan = PF.fin q) ↔
             ¬((∑ j in Finset.range p, gainQ close (i + 1 - p + j)) = 0 ∧
               (∑ j in Finset.range p, lossQ close (i + 1 - p + j)) = 0)))) := by
  intro close p hp
  refine ⟨⟨rfl, rfl⟩, ?_⟩
  intro i hi
  constructor
  · intro hlt
    rw [calculate_rsi_getD close p i hp hi, if_neg (by omega)]
  · intro hpi
    rw [calculate_rsi_getD close p i hp hi, if_pos hpi]
    constructor
    · rintro ⟨q, hq⟩ ⟨hGz, hLz⟩
      rw [if_pos hLz, if_pos hGz] at hq
      exact PF.noConfusion hq
    · intro hn
      by_cases hLz : (∑ j in Finset.range p, lossQ close (i + 1 - p + j)) = 0
      · rw [if_pos hLz]
        have hGz : ¬(∑ j in Finset.range p, gainQ close (i + 1 - p + j)) = 0 :=
          fun hGz => hn ⟨hGz, hLz⟩
        rw [if_neg hGz]
        exact ⟨100, rfl⟩
      · rw [if_neg hLz]
        exact ⟨_, rfl⟩

/-- Witness for C2 (amended) at closes [1, 2, 3] with period 2: the entry at
index `p − 1 = 1` is defined. -/
theorem rsi_warmup_missing_witness :
    ∃ q, (calculate_rsi [(1 : ℚ), 2, 3] 2).getD 1 PF.nan = PF.fin q := by
  apply (((rsi_warmup_missing [(1 : ℚ), 2, 3] 2 (by norm_num)).2 1 (by norm_num)).2
    (by norm_num)).mpr
  rintro ⟨hG, _⟩
  rw [show (1 + 1 - 2 : ℕ) = 0 from rfl] at hG
  norm_num [Finset.sum_range_succ, gainQ, List.getD] at hG

theorem rsi_example_entry :
    (calculate_rsi [(1 : ℚ), 2, 3] 2).getD 1 PF.nan = PF.fin 100 := by
  rw [calculate_rsi_getD [(1 : ℚ), 2, 3] 2 1 (by norm_num) (by norm_num)]
  rw [show (1 + 1 - 2 : ℕ) = 0 from rfl]
  have hL : (∑ j in Finset.range 2, lossQ [(1 : ℚ), 2, 3] (0 + j)) = 0 := by
    norm_num [Finset.sum_range_succ, lossQ, List.getD]
  have hG : (∑ j in Finset.range 2, gainQ [(1 : ℚ), 2, 3] (0 + j)) = 1 := by
    norm_num [Finset.sum_range_succ, gainQ, List.getD]
  rw [if_pos (by norm_num), if_pos hL, if_neg (by rw [hG]; norm_num)]

/-- Counterexample to C2 as stated: for closes [1, 2, 3] and period 2 the
RSI entry at index 1 (still inside the claimed first `p = 2` missing
entries) is already defined, with value 100. -/
theorem rsi_defined_at_index_p_minus_one :
    (calculate_rsi [(1 : ℚ), 2, 3] 2).getD 1 PF.nan = PF.fin 100 :=
  rsi_example_entry

/-- Claim C4: wherever the RSI series is defined its value lies in [0, 100];
when the window's losses sum to zero while its gains are positive the value
saturates at exactly 100; and for a strictly increasing close sequence every
defined RSI value equals 100. -/
theorem rsi_range_and_saturation :
    ∀ (close : List ℚ) (p : ℕ), 1 ≤ p →
      (∀ (i : ℕ) (v : ℚ), (calculate_rsi close p).getD i PF.nan = PF.fin v →
        0 ≤ v ∧ v ≤ 100) ∧
      (∀ i, p ≤ i + 1 → i < close.length →
        (∑ j in Finset.range p, lossQ close (i + 1 - p + j)) = 0 →
        0 < (∑ j in Finset.range p, gainQ close (i + 1 - p + j)) →
        (calculate_rsi close p).getD i PF.nan = PF.fin 100) ∧
      ((∀ j, j + 1 < close.length → close.getD j 0 < close.getD (j + 1) 0) →
        ∀ (i : ℕ) (v : ℚ), (calculate_rsi close p).getD i PF.nan = PF.fin v → v = 100) := by
  intro close p hp
  have hbeyond : ∀ (i : ℕ) (v : ℚ), ¬ i < close.length →
      (calculate_rsi close p).getD i PF.nan = PF.fin v → False := by
    intro i v hi hv
    rw [List.getD_eq_default _ _ (by rw [length_calculate_rsi]; omega)] at hv
    exact PF.noConfusion hv
  refine ⟨?_, ?_, ?_⟩
  · intro i v hv
    by_cases hi : i < close.length
    · rw [calculate_rsi_getD close p i hp hi] at hv
      by_cases hpi : p ≤ i + 1
      · rw [if_pos hpi] at hv
        have hGnn : 0 ≤ ∑ j in Finset.range p, gainQ close (i + 1 - p + j) :=
          Finset.sum_nonneg fun j _ => gainQ_nonneg close _
        have hLnn : 0 ≤ ∑ j in Finset.range p, lossQ close (i + 1 - p + j) :=
          Finset.sum_nonneg fun j _ => lossQ_nonneg close _
        have hp0 : (0 : ℚ) < (p : ℚ) := by exact_mod_cast Nat.pos_of_ne_zero (by omega)
        by_cases hLz : (∑ j in Finset.range p, lossQ close (i + 1 - p + j)) = 0
        · rw [if_pos hLz] at hv
          by_cases hGz : (∑ j in Finset.range p, gainQ close (i + 1 - p + j)) = 0
          · rw [if_pos hGz] at hv
            exact PF.noConfusion hv
          · rw [if_neg hGz] at hv
            injection hv with hv'
            constructor <;> linarith
        · rw [if_neg hLz] at hv
          injection hv with hv'
          have hLpos : 0 < (∑ j in Finset.range p, lossQ close (i + 1 - p + j)) / p :=
            div_pos (lt_of_le_of_ne hLnn (Ne.symm hLz)) hp0
          have ht : 0 ≤ ((∑ j in Finset.range p, gainQ close (i + 1 - p + j)) / p) /
              ((∑ j in Finset.range p, lossQ close (i + 1 - p + j)) / p) :=
            div_nonneg (div_nonneg hGnn (le_of_lt hp0)) (le_of_lt hLpos)
          have h1t : (0 : ℚ) < 1 +
              ((∑ j in Finset.range p, gainQ close (i + 1 - p + j)) / p) /
              ((∑ j in Finset.range p, lossQ close (i + 1 - p + j)) / p) := by linarith
          have hle : 100 / (1 +
              ((∑ j in Finset.range p, gainQ close (i + 1 - p + j)) / p) /
              ((∑ j in Finset.range p, lossQ close (i + 1 - p + j)) / p)) ≤ 100 := by
            rw [div_le_iff₀ h1t]
            nlinarith
          have hpos : 0 < 100 / (1 +
              ((∑ j in Finset.range p, gainQ close (i + 1 - p + j)) / p) /
              ((∑ j in Finset.range p, lossQ close (i + 1 - p + j)) / p)) := by positivity
          constructor <;> linarith
      · rw [if_neg hpi] at hv
        exact PF.noConfusion hv
    · exact absurd hv (fun hv => hbeyond i v hi hv)
  · intro i hpi hi hLz hGpos
    rw [calculate_rsi_getD close p i hp hi, if_pos hpi, if_pos hLz, if_neg (ne_of_gt hGpos)]
  · intro hmono i v hv
    by_cases hi : i < close.length
    · rw [calculate_rsi_getD close p i hp hi] at hv
      by_cases hpi : p ≤ i + 1
      · rw [if_pos hpi] at hv
        have hLz : (∑ j in Finset.range p, lossQ close (i + 1 - p + j)) = 0 := by
          apply Finset.sum_eq_zero
          intro j hj
          have hj' : j < p := Finset.mem_range.mp hj
          have hle : i + 1 - p + j ≤ i := by omega
          unfold lossQ
          by_cases h0 : i + 1 - p + j = 0
          · rw [if_pos h0]
          · rw [if_neg h0]
            have hstep := hmono (i + 1 - p + j - 1) (by omega)
            rw [show i + 1 - p + j - 1 + 1 = i + 1 - p + j from by omega] at hstep
            rw [if_neg (by linarith)]
        rw [if_pos hLz] at hv
        by_cases hGz : (∑ j in Finset.range p, gainQ close (i + 1 - p + j)) = 0
        · rw [if_pos hGz] at hv
          exact PF.noConfusion hv
        · rw [if_neg hGz] at hv
          injection hv with hv'
          linarith
      · rw [if_neg hpi] at hv
        exact PF.noConfusion hv
    · exact absurd hv (fun hv => hbeyond i v hi hv)

/-- Witness for C4 at closes [1, 2, 3] (strictly increasing) with period 2:
the defined entry at index 1 equals 100 and lies in [0, 100]. -/
theorem rsi_range_and_saturation_witness :
    ((100 : ℚ) = 100) ∧ (0 ≤ (100 : ℚ) ∧ (100 : ℚ) ≤ 100) :=
  ⟨(rsi_range_and_saturation [(1 : ℚ), 2, 3] 2 (by norm_num)).2.2
      (by
        intro j hj
        simp only [List.length_cons, List.length_nil] at hj
        have hj2 : j < 2 := by omega
        interval_cases j <;> norm_num [List.getD])
      1 100 rsi_example_entry,
   (rsi_range_and_saturation [(1 : ℚ), 2, 3] 2 (by norm_num)).1 1 100
      rsi_example_entry⟩

theorem length_cumsumSer (xs : List PF) : (cumsumSer xs).length = xs.length := by
  simp [cumsumSer]

theorem cumsumSer_getD (xs : List PF) (i : ℕ) (h : i < xs.length) :
    (cumsumSer xs).getD i PF.nan = (xs.take (i + 1)).foldl PF.add (PF.fin 0) :=
  getD_rangeMap _ _ i _ h

theorem foldl_add_fin : ∀ (l : List PF) (c : ℚ), (∀ x ∈ l, x.isFin = true) →
    l.foldl PF.add (PF.fin c) = PF.fin (c + (l.map PF.toQ).sum) := by
  intro l
  induction l with
  | nil =>
    intro c _
    simp
  | cons x xs ih =>
    intro c hall
    have hx : x.isFin = true := hall x (by simp)
    cases x with
    | fin q =>
      simp only [List.foldl_cons]
      have hstep : PF.add (PF.fin c) (PF.fin q) = PF.fin (c + q) := rfl
      rw [hstep, ih (c + q) (fun y hy => hall y (by simp [hy]))]
      simp only [List.map_cons, List.sum_cons, PF.toQ]
      exact congrArg PF.fin (by ring)
    | nan => exact absurd hx (by simp [PF.isFin])
    | pinf => exact absurd hx (by simp [PF.isFin])
    | ninf => exact absurd hx (by simp [PF.isFin])

theorem sum_rangeMap_take (f : Bar → ℚ) : ∀ (k : ℕ) (l : List Bar), k ≤ l.length →
    ((List.range k).map (fun j => f (l.getD j dBar))).sum = ((l.take k).map f).sum := by
  intro k
  induction k with
  | zero =>
    intro l _
    simp
  | succ k ih =>
    intro l hk
    rw [List.range_succ, List.map_append, List.sum_append, ih l (by omega),
        List.take_succ, List.map_append, List.sum_append]
    congr 1
    rw [List.getElem?_eq_getElem (show k < l.length by omega)]
    simp [List.getD_eq_getElem?_getD, List.getElem?_eq_getElem (show k < l.length by omega)]

/-- Per-index characterization of `calculate_vwap`: entry `i` is the IEEE
quotient of the running sums of `typical_price × volume` and of `volume`
over the first `i + 1` bars. -/
theorem calculate_vwap_getD (df : List Bar) (i : ℕ) (hi : i < df.length) :
    (calculate_vwap df).getD i PF.nan =
      PF.div
        (PF.fin (((df.take (i + 1)).map
            (fun b => ((b.high + b.low + b.close) / 3) * (b.volume : ℚ))).sum))
        (PF.fin (((df.take (i + 1)).map (fun b => ((b.volume : ℚ)))).sum)) := by
  have hlen_tp : (df.map (fun b => PF.fin ((b.high + b.low + b.close) / 3))).length
      = df.length := by simp
  have hlen_vol : (df.map (fun b => PF.fin ((b.volume : ℚ)))).length = df.length := by simp
  have hlen_prod : (seriesZip PF.mul (df.map (fun b => PF.fin ((b.high + b.low + b.close) / 3)))
      (df.map (fun b => PF.fin ((b.volume : ℚ))))).length = df.length := by
    rw [length_seriesZip, hlen_tp, hlen_vol, min_self]
  simp only [calculate_vwap]
  rw [seriesZip_getD PF.div _ _ i
      (by rw [length_cumsumSer, length_cumsumSer, hlen_prod, hlen_vol, min_self]; exact hi)]
  rw [cumsumSer_getD _ i (by rw [hlen_prod]; exact hi),
      cumsumSer_getD _ i (by rw [hlen_vol]; exact hi)]
  have hprod_entries : ∀ j, j < df.length →
      (seriesZip PF.mul (df.map (fun b => PF.fin ((b.high + b.low + b.close) / 3)))
        (df.map (fun b => PF.fin ((b.volume : ℚ))))).getD j PF.nan =
      PF.fin (((df.getD j dBar).high + (df.getD j dBar).low + (df.getD j dBar).close) / 3 *
        ((df.getD j dBar).volume : ℚ)) := by
    intro j hj
    rw [seriesZip_getD PF.mul _ _ j (by rw [hlen_tp, hlen_vol, min_self]; exact hj)]
    rw [getD_map _ _ j PF.nan dBar hj, getD_map _ _ j PF.nan dBar hj]
    rfl
  have hprod_take : (seriesZip PF.mul
        (df.map (fun b => PF.fin ((b.high + b.low + b.close) / 3)))
        (df.map (fun b => PF.fin ((b.volume : ℚ))))).take (i + 1) =
      (List.range (i + 1)).map (fun j =>
        PF.fin (((df.getD j dBar).high + (df.getD j dBar).low + (df.getD j dBar).close) / 3 *
          ((df.getD j dBar).volume : ℚ))) := by
    unfold seriesZip
    rw [hlen_tp, hlen_vol, min_self]
    rw [← List.map_take, List.take_range, min_eq_left (by omega)]
    apply List.map_congr_left
    intro j hj
    have hj' : j < df.length := lt_of_lt_of_le (List.mem_range.mp hj) hi
    have := hprod_entries j hj'
    rw [seriesZip_getD PF.mul _ _ j (by rw [hlen_tp, hlen_vol, min_self]; exact hj')] at this
    rw [getD_map _ _ j PF.nan dBar hj', getD_map _ _ j PF.nan dBar hj'] at this ⊢
    exact this
  have hvol_take : (df.map (fun b => PF.fin ((b.volume : ℚ)))).take (i + 1) =
      (df.take (i + 1)).map (fun b => PF.fin ((b.volume : ℚ))) :=
    (List.map_take _ _ _).symm
  rw [hprod_take, hvol_take]
  rw [foldl_add_fin _ 0 (by
        intro x hx
        rcases List.mem_map.mp hx with ⟨j, _, rfl⟩
        rfl),
      foldl_add_fin _ 0 (by
        intro x hx
        rcases List.mem_map.mp hx with ⟨b, _, rfl⟩
        rfl)]
  congr 2
  · rw [List.map_map]
    have hcomp : (PF.toQ ∘ fun j =>
        PF.fin (((df.getD j dBar).high + (df.getD j dBar).low + (df.getD j dBar).close) / 3 *
          ((df.getD j dBar).volume : ℚ))) = fun j =>
        (((df.getD j dBar).high + (df.getD j dBar).low + (df.getD j dBar).close) / 3 *
          ((df.getD j dBar).volume : ℚ)) := by
      funext j
      rfl
    rw [hcomp]
    rw [sum_rangeMap_take (fun b => ((b.high + b.low + b.close) / 3) * (b.volume : ℚ))
        (i + 1) df (by omega)]
    simp
  · rw [List.map_map]
    have hcomp : (PF.toQ ∘ fun b => PF.fin ((b.volume : ℚ))) =
        fun b : Bar => ((b.volume : ℚ)) := by
      funext b
      rfl
    rw [hcomp]
    simp

theorem PF.div_fin_fin (a b : ℚ) (hb : b ≠ 0) : PF.div (PF.fin a) (PF.fin b) = PF.fin (a / b) := by
  simp [PF.div, hb]

theorem PF.div_fin_zero_zero : PF.div (PF.fin 0) (PF.fin 0) = PF.nan := by
  simp [PF.div]

/-- Claim C5: VWAP at index i is the ratio of the cumulative sums of
typical_price × volume and of volume over bars 0..i; it is defined from the
first bar onward except where the cumulative volume is exactly 0, where the
entry is the missing marker; and the one-bar example with high 10, low 8,
close 9, volume 100 gives VWAP[0] = 9 exactly. -/
theorem vwap_cumsum_quotient :
    (∀ (df : List Bar) (i : ℕ), i < df.length →
      ((((df.take (i + 1)).map Bar.volume).sum = 0 →
          (calculate_vwap df).getD i PF.nan = PF.nan) ∧
       (((df.take (i + 1)).map Bar.volume).sum ≠ 0 →
          (calculate_vwap df).getD i PF.nan =
            PF.fin ((((df.take (i + 1)).map
                (fun b => ((b.high + b.low + b.close) / 3) * (b.volume : ℚ))).sum) /
              (((df.take (i + 1)).map (fun b => (b.volume : ℚ))).sum)))))
    ∧ (calculate_vwap vwapExampleBars).getD 0 PF.nan = PF.fin 9 := by
  have hcast : ∀ l : List Bar,
      ((l.map (fun b => (b.volume : ℚ))).sum) = (((l.map Bar.volume).sum : ℕ) : ℚ) := by
    intro l
    induction l with
    | nil => simp
    | cons b bs ih => simp [ih]
  constructor
  · intro df i hi
    constructor
    · intro hz
      rw [calculate_vwap_getD df i hi]
      have hvols : ∀ b ∈ df.take (i + 1), b.volume = 0 := by
        intro b hb
        exact List.sum_eq_zero_iff.mp hz _ (List.mem_map_of_mem Bar.volume hb)
      have hnum : ((df.take (i + 1)).map
          (fun b => ((b.high + b.low + b.close) / 3) * (b.volume : ℚ))).sum = 0 := by
        apply List.sum_eq_zero
        intro x hx
        rcases List.mem_map.mp hx with ⟨b, hb, rfl⟩
        rw [hvols b hb]
        norm_num
      have hden : ((df.take (i + 1)).map (fun b => (b.volume : ℚ))).sum = 0 := by
        rw [hcast, hz]
        norm_num
      rw [hnum, hden]
      exact PF.div_fin_zero_zero
    · intro hnz
      rw [calculate_vwap_getD df i hi]
      have hden : ((df.take (i + 1)).map (fun b => (b.volume : ℚ))).sum ≠ 0 := by
        rw [hcast]
        exact_mod_cast hnz
      rw [PF.div_fin_fin _ _ hden]
  · rw [calculate_vwap_getD vwapExampleBars 0 (by norm_num [vwapExampleBars])]
    norm_num [vwapExampleBars, PF.div]

/-- Witness for C5 at a concrete one-bar input with zero volume: the VWAP
entry is the missing marker rather than a numeric value. -/
theorem vwap_cumsum_quotient_witness :
    (calculate_vwap [⟨0, 570, 9, 10, 8, 9, 0⟩]).getD 0 PF.nan = PF.nan :=
  (vwap_cumsum_quotient.1 [⟨0, 570, 9, 10, 8, 9, 0⟩] 0 (by norm_num)).1 (by simp)

end StockChart
